import Mathlib

/-!
# Verification of the 4close change-detection pipeline

A shallow embedding of the core of `app.py`: record identity (`make_key`),
content fingerprints (`make_hash`), snapshot diffing (`diff_runs`), the
bulk tax-list replacement (`replace_tax_rows` and the dedupe step of
`parse_tax_pdf`), the link builders (`maps_url`, `zillow_url`), the
`tax_refresh` error path, and — modelled from the specification, since the
resolver is not part of the sources — the per-parcel address resolver.

Python `dict`s are embedded as association lists built with
`pyUpsert` (replace-in-place on an existing key, append on a fresh key),
which reproduces CPython's insertion-order semantics exactly.
-/

set_option autoImplicit false

namespace FourClose

/-! ## Python string helpers -/

/-- Splitting a character list into maximal runs of non-whitespace
characters, as Python's argumentless `str.split` does.  The accumulator
holds the current word, reversed. -/
def wordsAux : List Char → List Char → List (List Char)
  | [], cur => if cur = [] then [] else [cur.reverse]
  | c :: cs, cur =>
    if c.isWhitespace then
      if cur = [] then wordsAux cs [] else cur.reverse :: wordsAux cs []
    else wordsAux cs (c :: cur)

/-- The words of a character list (maximal non-whitespace runs). -/
def pyWords (l : List Char) : List (List Char) := wordsAux l []

/-- Interleave a separator character between character-list words, as
`" ".join(words)` does. -/
def joinSpace : List (List Char) → List Char
  | [] => []
  | [w] => w
  | w :: ws => w ++ ' ' :: joinSpace ws

/-- `norm` from `app.py`: `" ".join((s or "").strip().lower().split())` —
lower-case, then collapse all whitespace runs (including leading/trailing
whitespace) to single spaces. -/
def norm (s : String) : String :=
  String.mk (joinSpace (pyWords (s.data.map Char.toLower)))

/-! ## The record store -/

/-- A row of the `items` table (`app.py`, `init_db`): `stage`, `address`,
`city`, `state` are `NOT NULL`; `apn`, `zip`, `record_date`, `doc_type`,
`source_url` are nullable and embedded as `Option String`. -/
structure Item where
  id : Nat
  stage : String
  apn : Option String
  address : String
  city : String
  state : String
  zip : Option String
  record_date : Option String
  doc_type : Option String
  source_url : Option String
  deriving DecidableEq, Repr

/-- `make_key` from `app.py`: APN+stage when the normalized parcel number
is non-empty (Python string truthiness), else stage+address+city. -/
def make_key (row : Item) : String :=
  let apn := norm (row.apn.getD "")
  let addr := norm row.address
  let city := norm row.city
  let stage := norm row.stage
  if apn ≠ "" then stage ++ "|apn:" ++ apn
  else stage ++ "|addr:" ++ addr ++ "|" ++ city

/-- The list of tracked-field values entering the fingerprint, in source
order (`make_hash`'s `parts`, with `x or ""` on the nullable fields). -/
def hashParts (row : Item) : List String :=
  [row.stage, row.apn.getD "", row.address, row.city, row.state,
   row.zip.getD "", row.record_date.getD "", row.doc_type.getD "",
   row.source_url.getD ""]

/-- `make_hash` from `app.py`: `"|".join([norm(p) for p in parts])`. -/
def make_hash (row : Item) : String :=
  String.intercalate "|" ((hashParts row).map norm)

/-! ## Python dictionaries as association lists -/

/-- One `dict[k] = v` assignment: replace the value in place when the key
exists (keeping its position), append otherwise. -/
def pyUpsert {α β : Type} [DecidableEq α] (m : List (α × β)) (k : α) (v : β) :
    List (α × β) :=
  if m.any (fun p => p.1 = k) then
    m.map (fun p => if p.1 = k then (k, v) else p)
  else m ++ [(k, v)]

/-- Dictionary lookup: the value of the *last* binding of `k` (CPython
semantics; on the maps below keys are unique, so any binding agrees). -/
def pyGet {α β : Type} [DecidableEq α] : List (α × β) → α → Option β
  | [], _ => none
  | p :: m, k =>
    match pyGet m k with
    | some v => some v
    | none => if p.1 = k then some p.2 else none

/-- Build a dictionary from a list, one `d[key r] = val r` per element —
the shape of `{r["key"]: (r["hash"], r["item_id"]) for r in rows}` and of
the `dedup` loop in `parse_tax_pdf`. -/
def pyDict {α β γ : Type} [DecidableEq α] (key : γ → α) (val : γ → β)
    (l : List γ) : List (α × β) :=
  l.foldl (fun m r => pyUpsert m (key r) (val r)) []

/-! ## Snapshots and the diff engine -/

/-- One row of the `snapshots` table for a fixed run:
`(key, hash, item_id)`. -/
structure Snap where
  key : String
  hash : String
  item_id : Nat
  deriving DecidableEq, Repr

/-- `{r["key"]: (r["hash"], r["item_id"]) for r in rows}` from
`diff_runs`. -/
def snapMap (rows : List Snap) : List (String × (String × Nat)) :=
  pyDict (fun r => r.key) (fun r => (r.hash, r.item_id)) rows

/-- The mutable `summary` dictionary of `diff_runs`; it always carries
exactly the four classification labels. -/
structure Summary where
  NEW : Nat
  REMOVED : Nat
  UPDATED : Nat
  UNCHANGED : Nat
  deriving DecidableEq, Repr

/-- `summary[ct] += 1` guarded by `if ct in summary` — any other label is
silently dropped, exactly as in the source. -/
def bump (s : Summary) (ct : String) : Summary :=
  if ct = "NEW" then { s with NEW := s.NEW + 1 }
  else if ct = "REMOVED" then { s with REMOVED := s.REMOVED + 1 }
  else if ct = "UPDATED" then { s with UPDATED := s.UPDATED + 1 }
  else if ct = "UNCHANGED" then { s with UNCHANGED := s.UNCHANGED + 1 }
  else s

/-- The `changes` dictionary of `diff_runs` (`item_id -> change_type`):
three passes over the key sets, NEW then REMOVED then common keys.  The
set differences and the intersection are taken over the two snapshot
dictionaries, whose keys are unique, so iterating the dictionaries in
insertion order visits each key of the respective set exactly once. -/
def diffChanges (newMap oldMap : List (String × (String × Nat))) :
    List (Nat × String) :=
  let newOnly := newMap.filter (fun e => !(oldMap.any (fun o => o.1 = e.1)))
  let removed := oldMap.filter (fun e => !(newMap.any (fun n => n.1 = e.1)))
  let common := newMap.filter (fun e => oldMap.any (fun o => o.1 = e.1))
  let c1 := newOnly.foldl (fun m e => pyUpsert m e.2.2 "NEW") []
  let c2 := removed.foldl (fun m e => pyUpsert m e.2.2 "REMOVED") c1
  common.foldl
    (fun m e =>
      pyUpsert m e.2.2
        (if e.2.1 ≠ ((pyGet oldMap e.1).map (fun p => p.1)).getD ""
         then "UPDATED" else "UNCHANGED"))
    c2

/-- `diff_runs` from `app.py`, as a function of the two runs' snapshot
rows (the old run absent ⟶ an empty row list) and the current `items`
table: returns the items, the per-item classification map and the summary
(`changes.get(it["id"], "UNCHANGED")` supplies the default label). -/
def diff_runs (newRows oldRows : List Snap) (items : List Item) :
    List Item × List (Nat × String) × Summary :=
  let changes := diffChanges (snapMap newRows) (snapMap oldRows)
  let summary := items.foldl
    (fun s it => bump s ((pyGet changes it.id).getD "UNCHANGED"))
    ⟨0, 0, 0, 0⟩
  (items, changes, summary)

/-! ## Link builders -/

/-- The UTF-8 encoding of one code point, as a list of byte values —
Python strings are encoded to UTF-8 before percent-quoting. -/
def utf8Bytes (c : Char) : List Nat :=
  let n := c.toNat
  if n < 128 then [n]
  else if n < 2048 then [192 + n / 64, 128 + n % 64]
  else if n < 65536 then
    [224 + n / 4096, 128 + (n / 64) % 64, 128 + n % 64]
  else
    [240 + n / 262144, 128 + (n / 4096) % 64, 128 + (n / 64) % 64,
     128 + n % 64]

/-- A byte kept verbatim by `urllib.parse.quote_plus`: ASCII
alphanumerics and `_ . - ~`. -/
def safeByte (b : Nat) : Bool :=
  (48 ≤ b && b ≤ 57) || (65 ≤ b && b ≤ 90) || (97 ≤ b && b ≤ 122) ||
  b = 95 || b = 46 || b = 45 || b = 126

/-- Upper-case hexadecimal digit of a value below 16. -/
def hexDigit (n : Nat) : Char :=
  if n < 10 then Char.ofNat (48 + n) else Char.ofNat (55 + n)

/-- `quote_plus` on one byte: safe bytes kept, a space becomes `+`,
anything else is percent-encoded. -/
def quoteByte (b : Nat) : String :=
  if safeByte b then String.singleton (Char.ofNat b)
  else if b = 32 then "+"
  else String.mk ['%', hexDigit (b / 16), hexDigit (b % 16)]

/-- `urllib.parse.quote_plus` with its default arguments, byte by byte
over the UTF-8 encoding. -/
def quote_plus (s : String) : String :=
  String.join ((s.data.flatMap utf8Bytes).map quoteByte)

/-- Python's `str.strip()`: drop leading and trailing whitespace. -/
def pyStrip (s : String) : String :=
  String.mk
    (((s.data.dropWhile Char.isWhitespace).reverse.dropWhile
        Char.isWhitespace).reverse)

/-- The query string both link builders share:
`f"{address}, {city}, {state} {zip_ or ''}".strip()`. -/
def linkQuery (address city state : String) (zip : Option String) : String :=
  pyStrip (address ++ ", " ++ city ++ ", " ++ state ++ " " ++ zip.getD "")

/-- `maps_url` from `app.py`. -/
def maps_url (address city state : String) (zip : Option String) : String :=
  "https://www.google.com/maps/search/?api=1&query=" ++
    quote_plus (linkQuery address city state zip)

/-- `zillow_url` from `app.py`. -/
def zillow_url (address city state : String) (zip : Option String) : String :=
  "https://www.zillow.com/homes/" ++
    quote_plus (linkQuery address city state zip) ++ "_rb/"

/-! ## Tax-list refresh pipeline -/

/-- One dictionary produced per APN by `parse_tax_pdf` (all values are
plain strings there). -/
structure TaxRow where
  stage : String
  apn : String
  address : String
  city : String
  state : String
  zip : String
  record_date : String
  doc_type : String
  source_url : String
  deriving DecidableEq, Repr

/-- The row `parse_tax_pdf` appends for a matched APN: the address guess
(empty when no street-number-bearing line was found nearby) defaults to
`"Unknown address"`; the PDF's URL is threaded in as `srcUrl`. -/
def parseRow (srcUrl apn addressGuess : String) : TaxRow :=
  { stage := "TAX_DELINQUENCY"
    apn := apn
    address := if addressGuess = "" then "Unknown address" else addressGuess
    city := "Winnemucca"
    state := "NV"
    zip := "89445"
    record_date := ""
    doc_type := "Delinquent Tax Sale Parcel List"
    source_url := srcUrl }

/-- The `dedup` loop closing `parse_tax_pdf`: `dedup[r["apn"]] = r` over
all rows, then `list(dedup.values())` — one row per distinct APN, the
last occurrence winning, first-occurrence order. -/
def dedupByApn (rows : List TaxRow) : List TaxRow :=
  (pyDict (fun r => r.apn) (fun r => r) rows).map (fun p => p.2)

/-- The whole of `parse_tax_pdf` downstream of PDF text extraction:
build one row per `(apn, addressGuess)` hit, then dedupe by APN. -/
def parse_tax_rows (srcUrl : String) (hits : List (String × String)) :
    List TaxRow :=
  dedupByApn (hits.map (fun h => parseRow srcUrl h.1 h.2))

/-- The item `replace_tax_rows` inserts for a parsed row, with the
`x or default` fallbacks of the `INSERT` and a fresh id. -/
def insertedItem (i : Nat) (r : TaxRow) : Item :=
  { id := i
    stage := r.stage
    apn := some r.apn
    address := if r.address = "" then "Unknown address" else r.address
    city := if r.city = "" then "Winnemucca" else r.city
    state := if r.state = "" then "NV" else r.state
    zip := some (if r.zip = "" then "89445" else r.zip)
    record_date := some r.record_date
    doc_type := some r.doc_type
    source_url := some r.source_url }

/-- `replace_tax_rows` from `app.py`:
`DELETE FROM items WHERE stage='TAX_DELINQUENCY'`, then one `INSERT` per
row; SQLite hands the inserts consecutive fresh ids starting at
`nextId` (every live id is below it, ids are never reused). -/
def replace_tax_rows (rows : List TaxRow) (store : List Item)
    (nextId : Nat) : List Item :=
  store.filter (fun it => it.stage ≠ "TAX_DELINQUENCY") ++
    rows.enum.map (fun p => insertedItem (nextId + p.1) p.2)

/-- A user-visible `flash` message category, as used by the routes. -/
inductive Flash where
  | success (msg : String)
  | danger (msg : String)
  deriving DecidableEq, Repr

/-- The `/tax/refresh` route body: the external steps (PDF URL
discovery being total in the source — it falls back — the document
fetch, its status check, and the PDF parse) appear as the `fetched`
bytes and the `parsePdf` outcome; any exception lands in the `except`
branch, which flashes a failure and leaves the store alone. -/
def tax_refresh (fetched : Except String String)
    (parsePdf : String → Except String (List TaxRow))
    (store : List Item) (nextId : Nat) : List Item × Flash :=
  match fetched with
  | Except.error e => (store, Flash.danger ("Tax refresh failed: " ++ e))
  | Except.ok pdfBytes =>
    match parsePdf pdfBytes with
    | Except.error e => (store, Flash.danger ("Tax refresh failed: " ++ e))
    | Except.ok rows =>
      (replace_tax_rows rows store nextId,
       Flash.success ("Tax list refreshed. Loaded " ++
         toString rows.length ++ " APNs from county PDF."))

/-! ## Street-number heuristic

Both the source's address guess (`re.search(r"\b\d{1,6}\b", c2)` in
`parse_tax_pdf`) and the specification's "street-number token (1–6
digits)" test are the same regex; it matches a maximal digit run of
length 1–6 whose two neighbours (when present) are non-word
characters. -/

/-- A regex word character (`\w`, ASCII): letters, digits, underscore. -/
def isWordChar (c : Char) : Bool :=
  c.isAlpha || c.isDigit || c = '_'

/-- Scan for `\b\d{1,6}\b`: `prevOk` says the character left of the
current digit run (if any) was a non-word character, `n` is the length
of the digit run read so far. -/
def streetAux : List Char → Bool → Nat → Bool
  | [], prevOk, n => prevOk && decide (1 ≤ n) && decide (n ≤ 6)
  | c :: cs, prevOk, n =>
    if c.isDigit then streetAux cs prevOk (n + 1)
    else
      if prevOk && decide (1 ≤ n) && decide (n ≤ 6) && !isWordChar c then true
      else streetAux cs (!isWordChar c) 0

/-- Whether a string carries a street-number token, i.e. matches
`\b\d{1,6}\b`. -/
def hasStreetNumber (s : String) : Bool :=
  streetAux s.data true 0

/-! ## The resolver (modelled from the specification)

The repository sources under verification contain no resolver: the
`items` schema in `app.py` lacks the `assessor_url`, `resolved_situs`
and `resolved_at` columns and no `resolveBatch` exists.  The
specification (§3, §4.4) describes them in full, so this section models
the resolver from the specification's words alone. -/

/-- Modelled from the spec: a record as the Resolver sees it — the
store row extended with `assessor_url`, `resolved_situs` and
`resolved_at` (empty string = unset). -/
structure RecordR where
  id : Nat
  stage : String
  apn : String
  address : String
  city : String
  state : String
  zip : String
  assessor_url : String
  resolved_situs : String
  resolved_at : String
  deriving DecidableEq, Repr

/-- Modelled from the spec: "Build the external lookup URL
deterministically from the normalized (digits-only) parcel number." -/
def assessor_url_for (apn : String) : String :=
  "https://assessor-lookup/parcel/" ++ String.mk (apn.data.filter Char.isDigit)

/-- Whether `pat` occurs as a contiguous subsequence of `l`. -/
def containsSeq (pat : List Char) : List Char → Bool
  | [] => pat = []
  | c :: cs => l_start (c :: cs) || containsSeq pat cs
where
  l_start (l : List Char) : Bool := l.take pat.length = pat

/-- Modelled from the spec: "extract a `Location`-labeled line from the
response body" — the first line starting with the `Location` label, the
label stripped and the remainder trimmed. -/
def extractLocation (body : String) : Option String :=
  (((body.data.splitOn '\n').map String.mk).find?
      (fun l => l.data.take 8 = "Location".data)).map
    (fun l => pyStrip (String.mk (l.data.drop 8)))

/-- Modelled from the spec: "append city/state/zip defaults only when
the extracted text lacks them" — taken as lacking a state tag. -/
def normalizePostal (loc : String) : String :=
  if containsSeq "NV".data loc.data then loc
  else loc ++ ", Winnemucca, NV 89445"

/-- Modelled from the spec, §4.4 steps 2–4: one per-item resolution
attempt.  The attempt is always recorded (`assessor_url`,
`resolved_at`); `resolved_situs` is written only when a
`Location`-labeled line with a street-number token was extracted. -/
def resolveItem (resp : Option String) (now : String) (r : RecordR) :
    RecordR :=
  match resp with
  | none => { r with assessor_url := assessor_url_for r.apn,
                     resolved_at := now }
  | some body =>
    match extractLocation body with
    | none => { r with assessor_url := assessor_url_for r.apn,
                       resolved_at := now }
    | some loc =>
      if hasStreetNumber loc then
        { r with assessor_url := assessor_url_for r.apn,
                 resolved_at := now,
                 resolved_situs := normalizePostal loc }
      else { r with assessor_url := assessor_url_for r.apn,
                    resolved_at := now }

/-- Modelled from the spec: the Resolver's selection predicate — a
non-empty parcel number and an empty `resolved_situs`. -/
def needsResolve (r : RecordR) : Bool :=
  r.apn != "" && r.resolved_situs == ""

/-- Modelled from the spec: `resolveBatch(maxItems)` — walk the store in
its stable (id-ascending) order, resolving selected records while the
`maxItems` budget lasts and leaving every other record untouched. -/
def resolveBatch (lookup : String → Option String) (now : String) :
    Nat → List RecordR → List RecordR
  | _, [] => []
  | fuel, r :: rest =>
    if needsResolve r ∧ fuel ≠ 0 then
      resolveItem (lookup r.apn) now r ::
        resolveBatch lookup now (fuel - 1) rest
    else r :: resolveBatch lookup now fuel rest

/-! ## Dictionary lemmas -/

section DictLemmas

variable {α β γ : Type} [DecidableEq α]

theorem pyGet_eq_none_of_not_mem {m : List (α × β)} {k : α}
    (h : ∀ p ∈ m, p.1 ≠ k) : pyGet m k = none := by
  induction m with
  | nil => rfl
  | cons p m ih =>
    have hm : pyGet m k = none := ih (fun q hq => h q (List.mem_cons_of_mem _ hq))
    simp only [pyGet, hm]
    rw [if_neg (h p (List.mem_cons_self _ _))]

theorem pyGet_mem {m : List (α × β)} {k : α} {v : β}
    (h : pyGet m k = some v) : (k, v) ∈ m := by
  induction m with
  | nil => simp [pyGet] at h
  | cons p m ih =>
    simp only [pyGet] at h
    cases hm : pyGet m k with
    | some w =>
      rw [hm] at h
      exact List.mem_cons_of_mem _ (ih (hm.trans (by injection h with h; rw [h])))
    | none =>
      rw [hm] at h
      by_cases hk : p.1 = k
      · rw [if_pos hk] at h
        injection h with h
        have : p = (k, v) := by
          cases p
          simp_all
        exact this ▸ List.mem_cons_self _ _
      · rw [if_neg hk] at h
        exact absurd h (by simp)

theorem pyGet_append {m m' : List (α × β)} {k : α} :
    pyGet (m ++ m') k =
      match pyGet m' k with
      | some v => some v
      | none => pyGet m k := by
  induction m with
  | nil =>
    cases h : pyGet m' k <;> simp [pyGet, h]
  | cons p m ih =>
    have hstep : pyGet ((p :: m) ++ m') k =
        match pyGet (m ++ m') k with
        | some v => some v
        | none => if p.1 = k then some p.2 else none := rfl
    rw [hstep, ih]
    cases h : pyGet m' k <;> cases h2 : pyGet m k <;> simp [pyGet, h2]

theorem pyGet_upsert_same {m : List (α × β)} {k : α} {v : β} :
    pyGet (pyUpsert m k v) k = some v := by
  unfold pyUpsert
  by_cases h : m.any (fun p => p.1 = k)
  · rw [if_pos h]
    induction m with
    | nil => simp at h
    | cons p m ih =>
      simp only [List.map_cons, pyGet]
      by_cases hm : m.any (fun p => p.1 = k)
      · rw [ih hm]
      · have hnone : pyGet (m.map (fun p => if p.1 = k then (k, v) else p)) k = none := by
          apply pyGet_eq_none_of_not_mem
          intro q hq
          obtain ⟨r, hr, hrq⟩ := List.mem_map.mp hq
          have hrk : ¬ r.1 = k := by
            intro hk
            exact hm (List.any_eq_true.mpr ⟨r, hr, by simp [hk]⟩)
          rw [if_neg hrk] at hrq
          rw [← hrq]
          exact hrk
        rw [hnone]
        have hpk : p.1 = k := by
          simp only [List.any_cons, Bool.or_eq_true, decide_eq_true_eq] at h
          rcases h with h | h
          · exact h
          · exact absurd h (by simpa using hm)
        rw [if_pos hpk]
        simp
  · rw [if_neg h, pyGet_append]
    simp [pyGet]

theorem pyGet_upsert_ne {m : List (α × β)} {k k' : α} {v : β}
    (hne : k' ≠ k) : pyGet (pyUpsert m k v) k' = pyGet m k' := by
  unfold pyUpsert
  by_cases h : m.any (fun p => p.1 = k)
  · rw [if_pos h]
    clear h
    induction m with
    | nil => rfl
    | cons p m ih =>
      simp only [List.map_cons, pyGet, ih]
      by_cases hpk : p.1 = k
      · rw [if_pos hpk]
        have : ¬ (k = k') := fun hk => hne hk.symm
        rw [if_neg this, if_neg (by rw [hpk]; exact this)]
      · rw [if_neg hpk]
  · rw [if_neg h, pyGet_append]
    have : pyGet [(k, v)] k' = none := by
      apply pyGet_eq_none_of_not_mem
      intro p hp
      simp only [List.mem_singleton] at hp
      subst hp
      exact fun hk => hne hk.symm
    rw [this]

theorem mem_pyUpsert {m : List (α × β)} {k : α} {v : β} {p : α × β}
    (h : p ∈ pyUpsert m k v) : p ∈ m ∨ p = (k, v) := by
  unfold pyUpsert at h
  by_cases hany : m.any (fun q => q.1 = k)
  · rw [if_pos hany] at h
    obtain ⟨q, hq, hqp⟩ := List.mem_map.mp h
    by_cases hqk : q.1 = k
    · rw [if_pos hqk] at hqp
      exact Or.inr hqp.symm
    · rw [if_neg hqk] at hqp
      exact Or.inl (hqp ▸ hq)
  · rw [if_neg hany] at h
    rcases List.mem_append.mp h with h | h
    · exact Or.inl h
    · simp at h
      exact Or.inr (by rw [h])

theorem keys_pyUpsert {m : List (α × β)} {k : α} {v : β} :
    (pyUpsert m k v).map Prod.fst =
      if m.any (fun p => p.1 = k) then m.map Prod.fst
      else m.map Prod.fst ++ [k] := by
  unfold pyUpsert
  by_cases h : m.any (fun p => p.1 = k)
  · rw [if_pos h, if_pos h, List.map_map]
    apply List.map_congr_left
    intro p _
    by_cases hpk : p.1 = k <;> simp [hpk]
  · rw [if_neg h, if_neg h]
    simp

end DictLemmas

/-! ## Lemmas about dictionary-building folds -/

section FoldLemmas

variable {α β γ : Type} [DecidableEq α] {f : γ → α} {g : γ → β}

theorem foldl_upsert_get_of_ne {l : List γ} {m0 : List (α × β)} {i : α}
    (h : ∀ e ∈ l, f e ≠ i) :
    pyGet (l.foldl (fun m e => pyUpsert m (f e) (g e)) m0) i = pyGet m0 i := by
  induction l generalizing m0 with
  | nil => rfl
  | cons e l ih =>
    rw [List.foldl_cons, ih (fun e' he' => h e' (List.mem_cons_of_mem _ he'))]
    exact pyGet_upsert_ne (fun hi => h e (List.mem_cons_self _ _) hi.symm)

theorem foldl_upsert_get {l : List γ} {m0 : List (α × β)} {i : α} {v : β}
    (hex : ∃ e ∈ l, f e = i) (hval : ∀ e ∈ l, f e = i → g e = v) :
    pyGet (l.foldl (fun m e => pyUpsert m (f e) (g e)) m0) i = some v := by
  induction l generalizing m0 with
  | nil => simp at hex
  | cons e l ih =>
    rw [List.foldl_cons]
    by_cases htail : ∃ e' ∈ l, f e' = i
    · exact ih htail (fun e' he' => hval e' (List.mem_cons_of_mem _ he'))
    · obtain ⟨e', he', hfe'⟩ := hex
      have he'head : e' = e := by
        rcases List.mem_cons.mp he' with h | h
        · exact h
        · exact absurd ⟨e', h, hfe'⟩ htail
      subst he'head
      have hne : ∀ e'' ∈ l, f e'' ≠ i := by
        intro e'' he'' hi
        exact htail ⟨e'', he'', hi⟩
      rw [foldl_upsert_get_of_ne hne, hfe',
        hval e' (List.mem_cons_self _ _) hfe']
      exact pyGet_upsert_same

theorem foldl_upsert_mem_src {l : List γ} {m0 : List (α × β)} {p : α × β}
    (h : p ∈ l.foldl (fun m e => pyUpsert m (f e) (g e)) m0) :
    p ∈ m0 ∨ ∃ e ∈ l, p = (f e, g e) := by
  induction l generalizing m0 with
  | nil => exact Or.inl h
  | cons e l ih =>
    rw [List.foldl_cons] at h
    rcases ih h with h' | h'
    · rcases mem_pyUpsert h' with h'' | h''
      · exact Or.inl h''
      · exact Or.inr ⟨e, List.mem_cons_self _ _, h''⟩
    · obtain ⟨e', he', hp⟩ := h'
      exact Or.inr ⟨e', List.mem_cons_of_mem _ he', hp⟩

theorem keys_foldl_upsert_nodup {l : List γ} {m0 : List (α × β)}
    (h : (m0.map Prod.fst).Nodup) :
    ((l.foldl (fun m e => pyUpsert m (f e) (g e)) m0).map Prod.fst).Nodup := by
  induction l generalizing m0 with
  | nil => exact h
  | cons e l ih =>
    rw [List.foldl_cons]
    apply ih
    rw [keys_pyUpsert]
    by_cases hany : m0.any (fun p => p.1 = f e)
    · rwa [if_pos hany]
    · rw [if_neg hany, List.nodup_append]
      refine ⟨h, List.nodup_singleton _, ?_⟩
      intro k hk hk'
      simp only [List.mem_singleton] at hk'
      subst hk'
      obtain ⟨p, hp, hpk⟩ := List.mem_map.mp hk
      exact hany (List.any_eq_true.mpr ⟨p, hp, by simp [hpk]⟩)

theorem keys_foldl_upsert_mem {l : List γ} {m0 : List (α × β)} {k : α} :
    k ∈ (l.foldl (fun m e => pyUpsert m (f e) (g e)) m0).map Prod.fst ↔
      k ∈ m0.map Prod.fst ∨ k ∈ l.map f := by
  induction l generalizing m0 with
  | nil => simp
  | cons e l ih =>
    rw [List.foldl_cons, ih, keys_pyUpsert]
    by_cases hany : m0.any (fun p => p.1 = f e)
    · rw [if_pos hany]
      obtain ⟨p, hp, hpk⟩ := List.any_eq_true.mp hany
      simp only [decide_eq_true_eq] at hpk
      constructor
      · rintro (h | h)
        · exact Or.inl h
        · exact Or.inr (List.mem_cons_of_mem _ h)
      · rintro (h | h)
        · exact Or.inl h
        · rcases (by simpa using h : k = f e ∨ ∃ a ∈ l, f a = k) with h' | h'
          · exact Or.inl (List.mem_map.mpr ⟨p, hp, by rw [hpk]; exact h'.symm⟩)
          · obtain ⟨a, ha, hak⟩ := h'
            exact Or.inr (List.mem_map.mpr ⟨a, ha, hak⟩)
    · rw [if_neg hany]
      simp only [List.mem_append, List.mem_singleton, List.map_cons,
        List.mem_cons]
      tauto

theorem foldl_upsert_fresh {l : List γ} {m0 : List (α × β)}
    (hnd : (l.map f).Nodup) (hdisj : ∀ e ∈ l, f e ∉ m0.map Prod.fst) :
    l.foldl (fun m e => pyUpsert m (f e) (g e)) m0 =
      m0 ++ l.map (fun e => (f e, g e)) := by
  induction l generalizing m0 with
  | nil => simp
  | cons e l ih =>
    rw [List.foldl_cons]
    have hany : ¬ m0.any (fun p => p.1 = f e) := by
      intro h
      obtain ⟨p, hp, hpk⟩ := List.any_eq_true.mp h
      simp only [decide_eq_true_eq] at hpk
      exact hdisj e (List.mem_cons_self _ _)
        (List.mem_map.mpr ⟨p, hp, hpk⟩)
    rw [show pyUpsert m0 (f e) (g e) = m0 ++ [(f e, g e)] from
      by rw [pyUpsert, if_neg hany]]
    rw [List.map_cons] at hnd
    have hnd' : (l.map f).Nodup := hnd.of_cons
    have hdisj' : ∀ e' ∈ l, f e' ∉ (m0 ++ [(f e, g e)]).map Prod.fst := by
      intro e' he'
      rw [List.map_append]
      intro hmem
      rcases List.mem_append.mp hmem with h | h
      · exact hdisj e' (List.mem_cons_of_mem _ he') h
      · simp only [List.map_cons, List.map_nil, List.mem_singleton] at h
        have : f e ∈ l.map f := List.mem_map.mpr ⟨e', he', h⟩
        exact (List.nodup_cons.mp hnd).1 this
    rw [ih hnd' hdisj', List.append_assoc]
    rfl

end FoldLemmas

/-! ## Consequences for `pyDict` -/

section PyDictLemmas

variable {α β γ : Type} [DecidableEq α] {key : γ → α} {val : γ → β}

theorem pyDict_mem {l : List γ} {p : α × β} (h : p ∈ pyDict key val l) :
    ∃ r ∈ l, key r = p.1 ∧ val r = p.2 := by
  rcases foldl_upsert_mem_src h with h' | h'
  · simp at h'
  · obtain ⟨e, he, hp⟩ := h'
    exact ⟨e, he, by rw [hp], by rw [hp]⟩

theorem pyDict_keys_nodup {l : List γ} :
    ((pyDict key val l).map Prod.fst).Nodup :=
  keys_foldl_upsert_nodup (by simp)

theorem pyDict_keys_mem {l : List γ} {k : α} :
    k ∈ (pyDict key val l).map Prod.fst ↔ k ∈ l.map key := by
  rw [pyDict, keys_foldl_upsert_mem]
  simp

theorem pyDict_of_nodup_keys {l : List γ} (h : (l.map key).Nodup) :
    pyDict key val l = l.map (fun e => (key e, val e)) := by
  rw [pyDict, foldl_upsert_fresh h (by simp)]
  rfl

end PyDictLemmas

/-! ## Snapshot-map lemmas -/

theorem pyGet_none_not_mem {α β : Type} [DecidableEq α]
    {m : List (α × β)} {k : α} (h : pyGet m k = none) :
    ∀ p ∈ m, p.1 ≠ k := by
  induction m with
  | nil => simp
  | cons p m ih =>
    simp only [pyGet] at h
    cases hm : pyGet m k with
    | some w => rw [hm] at h; exact absurd h (by simp)
    | none =>
      rw [hm] at h
      intro q hq
      rcases List.mem_cons.mp hq with h' | h'
      · subst h'
        intro hk
        rw [if_pos hk] at h
        exact absurd h (by simp)
      · exact ih hm q h'

theorem any_key_eq_false_iff {α β : Type} [DecidableEq α]
    {m : List (α × β)} {k : α} :
    (m.any (fun p => p.1 = k)) = false ↔ pyGet m k = none := by
  constructor
  · intro h
    apply pyGet_eq_none_of_not_mem
    intro p hp
    have := List.any_eq_false.mp h p hp
    simpa using this
  · intro h
    apply List.any_eq_false.mpr
    intro p hp
    simpa using pyGet_none_not_mem h p hp

/-- Every entry of a snapshot dictionary is literally the image of one
of the snapshot rows. -/
theorem snapMap_src {rows : List Snap} {p : String × String × Nat}
    (h : p ∈ snapMap rows) :
    ∃ r ∈ rows, p = (r.key, (r.hash, r.item_id)) := by
  obtain ⟨r, hr, hk, hv⟩ := pyDict_mem h
  refine ⟨r, hr, ?_⟩
  obtain ⟨p1, p2⟩ := p
  simp only at hk hv
  rw [← hk, ← hv]

/-- Under the snapshot primary key (one row per item per run), two
entries of the same snapshot dictionary with the same item id
coincide. -/
theorem snapMap_id_inj {rows : List Snap}
    (hrows : ∀ e1 ∈ rows, ∀ e2 ∈ rows, e1.item_id = e2.item_id → e1 = e2)
    {p1 p2 : String × String × Nat}
    (h1 : p1 ∈ snapMap rows) (h2 : p2 ∈ snapMap rows)
    (hid : p1.2.2 = p2.2.2) : p1 = p2 := by
  obtain ⟨r1, hr1, he1⟩ := snapMap_src h1
  obtain ⟨r2, hr2, he2⟩ := snapMap_src h2
  have : r1 = r2 := hrows r1 hr1 r2 hr2 (by rw [he1, he2] at hid; exact hid)
  rw [he1, he2, this]

/-- `diffChanges`, stated without the intermediate `let`s. -/
theorem diffChanges_def (nm om : List (String × String × Nat)) :
    diffChanges nm om =
      (nm.filter (fun e => om.any (fun o => o.1 = e.1))).foldl
        (fun m e => pyUpsert m e.2.2
          (if e.2.1 ≠ ((pyGet om e.1).map (fun p => p.1)).getD ""
           then "UPDATED" else "UNCHANGED"))
        ((om.filter (fun e => !(nm.any (fun n => n.1 = e.1)))).foldl
          (fun m e => pyUpsert m e.2.2 "REMOVED")
          ((nm.filter (fun e => !(om.any (fun o => o.1 = e.1)))).foldl
            (fun m e => pyUpsert m e.2.2 "NEW") [])) := rfl

/-! ## Claim C1 -/

/-- C1: for every pair of runs satisfying the snapshot primary key (one
entry per item per run) and the source's key-stability invariant (items
are never updated in place, so an item carries the same key in both
runs), the diff classifies a key present only in the new run's map as
NEW against the new entry's item id, a key present only in the old map
as REMOVED against the old entry's item id, and a key present in both
as UPDATED or UNCHANGED — according to whether the fingerprints differ —
against the new entry's item id. -/
theorem C1_diff_classification
    (newRows oldRows : List Snap) (items : List Item)
    (hnew : ∀ e1 ∈ newRows, ∀ e2 ∈ newRows, e1.item_id = e2.item_id → e1 = e2)
    (hcross : ∀ e1 ∈ newRows, ∀ e2 ∈ oldRows,
      e1.item_id = e2.item_id → e1.key = e2.key)
    (k : String) :
    (∀ h i, pyGet (snapMap newRows) k = some (h, i) →
      pyGet (snapMap oldRows) k = none →
      pyGet (diff_runs newRows oldRows items).2.1 i = some "NEW") ∧
    (∀ h i, pyGet (snapMap oldRows) k = some (h, i) →
      pyGet (snapMap newRows) k = none →
      pyGet (diff_runs newRows oldRows items).2.1 i = some "REMOVED") ∧
    (∀ hn i ho j, pyGet (snapMap newRows) k = some (hn, i) →
      pyGet (snapMap oldRows) k = some (ho, j) →
      pyGet (diff_runs newRows oldRows items).2.1 i =
        some (if hn ≠ ho then "UPDATED" else "UNCHANGED")) := by
  have hchanges : (diff_runs newRows oldRows items).2.1 =
      diffChanges (snapMap newRows) (snapMap oldRows) := rfl
  refine ⟨?_, ?_, ?_⟩
  · -- key only in the new map
    intro h i hN hO
    rw [hchanges, diffChanges_def]
    have hnmem : (k, (h, i)) ∈ snapMap newRows := pyGet_mem hN
    obtain ⟨r0, hr0, he0⟩ := snapMap_src hnmem
    simp only [Prod.mk.injEq] at he0
    have h3 : ∀ e ∈ (snapMap newRows).filter
        (fun e => (snapMap oldRows).any (fun o => o.1 = e.1)), e.2.2 ≠ i := by
      intro e he hei
      obtain ⟨hem, hany⟩ := List.mem_filter.mp he
      have heq : e = (k, (h, i)) := snapMap_id_inj hnew hem hnmem hei
      rw [heq] at hany
      obtain ⟨p, hp, hpk⟩ := List.any_eq_true.mp hany
      exact pyGet_none_not_mem hO p hp (by simpa using hpk)
    have h2 : ∀ e ∈ (snapMap oldRows).filter
        (fun e => !((snapMap newRows).any (fun n => n.1 = e.1))), e.2.2 ≠ i := by
      intro e he hei
      obtain ⟨hem, hnotany⟩ := List.mem_filter.mp he
      obtain ⟨r', hr', he'⟩ := snapMap_src hem
      have hid : r0.item_id = r'.item_id := by
        rw [← he0.2.2]
        rw [he'] at hei
        exact hei.symm
      have hkey : r0.key = r'.key := hcross r0 hr0 r' hr' hid
      have hek : e.1 = k := by
        rw [he']
        simp only
        rw [← hkey, ← he0.1]
      rw [Bool.not_eq_true'] at hnotany
      have := List.any_eq_false.mp hnotany (k, (h, i)) hnmem
      rw [hek] at this
      simp at this
    rw [foldl_upsert_get_of_ne h3, foldl_upsert_get_of_ne h2]
    refine foldl_upsert_get ⟨(k, (h, i)), ?_, rfl⟩ (fun e _ _ => rfl)
    refine List.mem_filter.mpr ⟨hnmem, ?_⟩
    rw [Bool.not_eq_true', any_key_eq_false_iff]
    exact hO
  · -- key only in the old map
    intro h i hO hN
    rw [hchanges, diffChanges_def]
    have homem : (k, (h, i)) ∈ snapMap oldRows := pyGet_mem hO
    obtain ⟨r0, hr0, he0⟩ := snapMap_src homem
    simp only [Prod.mk.injEq] at he0
    have h3 : ∀ e ∈ (snapMap newRows).filter
        (fun e => (snapMap oldRows).any (fun o => o.1 = e.1)), e.2.2 ≠ i := by
      intro e he hei
      obtain ⟨hem, _⟩ := List.mem_filter.mp he
      obtain ⟨r', hr', he'⟩ := snapMap_src hem
      have hid : r'.item_id = r0.item_id := by
        rw [← he0.2.2]
        rw [he'] at hei
        exact hei
      have hkey : r'.key = r0.key := hcross r' hr' r0 hr0 hid
      have hek : e.1 = k := by
        rw [he']
        simp only
        rw [hkey, ← he0.1]
      exact pyGet_none_not_mem hN e hem hek
    rw [foldl_upsert_get_of_ne h3]
    refine foldl_upsert_get ⟨(k, (h, i)), ?_, rfl⟩ (fun e _ _ => rfl)
    refine List.mem_filter.mpr ⟨homem, ?_⟩
    rw [Bool.not_eq_true', any_key_eq_false_iff]
    exact hN
  · -- key in both maps
    intro hn i ho j hN hO
    rw [hchanges, diffChanges_def]
    have hnmem : (k, (hn, i)) ∈ snapMap newRows := pyGet_mem hN
    have homem : (k, (ho, j)) ∈ snapMap oldRows := pyGet_mem hO
    have hcommon : (k, (hn, i)) ∈ (snapMap newRows).filter
        (fun e => (snapMap oldRows).any (fun o => o.1 = e.1)) := by
      refine List.mem_filter.mpr ⟨hnmem, ?_⟩
      exact List.any_eq_true.mpr ⟨(k, (ho, j)), homem, by simp⟩
    refine foldl_upsert_get ⟨(k, (hn, i)), hcommon, rfl⟩ ?_
    intro e he hei
    have heq : e = (k, (hn, i)) :=
      snapMap_id_inj hnew (List.mem_filter.mp he).1 hnmem hei
    rw [heq]
    simp [hO]

/-- Witness for C1 on concrete runs: `k3` is NEW at item 6, `k1` is
REMOVED at item 1, and `k2` — whose fingerprint changed — is UPDATED at
item 5. -/
theorem C1_diff_classification_witness :
    pyGet (diff_runs [⟨"k2", "h2", 5⟩, ⟨"k3", "h3", 6⟩]
      [⟨"k1", "h1", 1⟩, ⟨"k2", "h9", 2⟩] []).2.1 6 = some "NEW" ∧
    pyGet (diff_runs [⟨"k2", "h2", 5⟩, ⟨"k3", "h3", 6⟩]
      [⟨"k1", "h1", 1⟩, ⟨"k2", "h9", 2⟩] []).2.1 1 = some "REMOVED" ∧
    pyGet (diff_runs [⟨"k2", "h2", 5⟩, ⟨"k3", "h3", 6⟩]
      [⟨"k1", "h1", 1⟩, ⟨"k2", "h9", 2⟩] []).2.1 5 = some "UPDATED" := by
  refine ⟨?_, ?_, ?_⟩
  · exact (C1_diff_classification _ _ _ (by decide) (by decide) "k3").1
      "h3" 6 (by decide) (by decide)
  · exact (C1_diff_classification _ _ _ (by decide) (by decide) "k1").2.1
      "h1" 1 (by decide) (by decide)
  · have := (C1_diff_classification [⟨"k2", "h2", 5⟩, ⟨"k3", "h3", 6⟩]
      [⟨"k1", "h1", 1⟩, ⟨"k2", "h9", 2⟩] [] (by decide) (by decide) "k2").2.2
      "h2" 5 "h9" 2 (by decide) (by decide)
    rw [if_pos (by decide)] at this
    exact this

/-! ## Summary-counting lemmas -/

/-- The total of the four summary counters. -/
def summaryTotal (s : Summary) : Nat :=
  s.NEW + s.REMOVED + s.UPDATED + s.UNCHANGED

theorem bump_NEW (s : Summary) (ct : String) :
    (bump s ct).NEW = s.NEW + (if ct = "NEW" then 1 else 0) := by
  unfold bump
  split_ifs <;> simp_all

theorem bump_REMOVED (s : Summary) (ct : String) :
    (bump s ct).REMOVED = s.REMOVED + (if ct = "REMOVED" then 1 else 0) := by
  unfold bump
  split_ifs <;> simp_all

theorem bump_UPDATED (s : Summary) (ct : String) :
    (bump s ct).UPDATED = s.UPDATED + (if ct = "UPDATED" then 1 else 0) := by
  unfold bump
  split_ifs <;> simp_all

theorem bump_UNCHANGED (s : Summary) (ct : String) :
    (bump s ct).UNCHANGED =
      s.UNCHANGED + (if ct = "UNCHANGED" then 1 else 0) := by
  unfold bump
  split_ifs <;> simp_all

/-- The summary fold, in closed form: each counter collects the items
bearing its own label. -/
theorem foldl_bump_eq (items : List Item) (lab : Item → String)
    (s0 : Summary) :
    items.foldl (fun s it => bump s (lab it)) s0 =
      ⟨s0.NEW + items.countP (fun it => lab it = "NEW"),
       s0.REMOVED + items.countP (fun it => lab it = "REMOVED"),
       s0.UPDATED + items.countP (fun it => lab it = "UPDATED"),
       s0.UNCHANGED + items.countP (fun it => lab it = "UNCHANGED")⟩ := by
  induction items generalizing s0 with
  | nil => cases s0; simp
  | cons it items ih =>
    rw [List.foldl_cons, ih]
    simp only [Summary.mk.injEq, List.countP_cons, bump_NEW, bump_REMOVED,
      bump_UPDATED, bump_UNCHANGED, decide_eq_true_eq]
    refine ⟨?_, ?_, ?_, ?_⟩ <;> (split_ifs <;> omega)

/-- A classification looked up in `diffChanges` is one of the four
labels. -/
theorem diffChanges_values {nm om : List (String × String × Nat)}
    {i : Nat} {v : String} (h : pyGet (diffChanges nm om) i = some v) :
    v = "NEW" ∨ v = "REMOVED" ∨ v = "UPDATED" ∨ v = "UNCHANGED" := by
  have hmem := pyGet_mem h
  rw [diffChanges_def] at hmem
  rcases foldl_upsert_mem_src hmem with h1 | h1
  · rcases foldl_upsert_mem_src h1 with h2 | h2
    · rcases foldl_upsert_mem_src h2 with h3 | h3
      · simp at h3
      · obtain ⟨e, _, hp⟩ := h3
        simp only [Prod.mk.injEq] at hp
        exact Or.inl hp.2
    · obtain ⟨e, _, hp⟩ := h2
      simp only [Prod.mk.injEq] at hp
      exact Or.inr (Or.inl hp.2)
  · obtain ⟨e, _, hp⟩ := h1
    simp only [Prod.mk.injEq] at hp
    rcases hp with ⟨_, hv⟩
    split at hv
    · exact Or.inr (Or.inr (Or.inl hv))
    · exact Or.inr (Or.inr (Or.inr hv))

/-- The label an item contributes to the summary is always one of the
four counters. -/
theorem diff_label_mem (nm om : List (String × String × Nat)) (i : Nat) :
    (pyGet (diffChanges nm om) i).getD "UNCHANGED" = "NEW" ∨
    (pyGet (diffChanges nm om) i).getD "UNCHANGED" = "REMOVED" ∨
    (pyGet (diffChanges nm om) i).getD "UNCHANGED" = "UPDATED" ∨
    (pyGet (diffChanges nm om) i).getD "UNCHANGED" = "UNCHANGED" := by
  cases h : pyGet (diffChanges nm om) i with
  | none => simp
  | some v => simpa using diffChanges_values h

/-! ## Claim C4 -/

/-- Each summary-fold label partitions one item into exactly one of the
four counters. -/
theorem countP_four_labels (items : List Item) (lab : Item → String)
    (h : ∀ it ∈ items, lab it = "NEW" ∨ lab it = "REMOVED" ∨
      lab it = "UPDATED" ∨ lab it = "UNCHANGED") :
    items.countP (fun it => lab it = "NEW") +
      items.countP (fun it => lab it = "REMOVED") +
      items.countP (fun it => lab it = "UPDATED") +
      items.countP (fun it => lab it = "UNCHANGED") = items.length := by
  induction items with
  | nil => simp
  | cons it items ih =>
    have hrest := ih (fun x hx => h x (List.mem_cons_of_mem _ hx))
    simp only [List.countP_cons, List.length_cons]
    rcases h it (List.mem_cons_self _ _) with hx | hx | hx | hx <;>
      simp [hx] <;> omega

/-- C4, counterexample to the claim as stated: with an old run holding
the single key `k1` whose item was since deleted (empty store, empty
new run), `k1` is classified REMOVED, so the claim's equation
`|NEW|+|REMOVED|+|UPDATED|+|UNCHANGED| = |keys(run1) ∪ keys(run2)|`
(one removed key) demands total 1 — but every counter is zero, because
the summary loop only walks the current `items` table and the removed
key's item no longer exists there. -/
theorem C4_summary_counterexample :
    (diff_runs [] [⟨"k1", "h1", 1⟩] []).2.1 = [(1, "REMOVED")] ∧
    (snapMap [Snap.mk "k1" "h1" 1]).map Prod.fst = ["k1"] ∧
    (snapMap ([] : List Snap)).map Prod.fst = [] ∧
    summaryTotal (diff_runs [] [⟨"k1", "h1", 1⟩] []).2.2 = 0 := by
  decide

/-- C4, amended: the summary always carries exactly the four labels
NEW, REMOVED, UPDATED, UNCHANGED, and the four counts sum to the number
of rows currently in the `items` table — REMOVED keys whose item id is
no longer among the live rows are not counted. -/
theorem C4_summary_amended (newRows oldRows : List Snap)
    (items : List Item) :
    summaryTotal (diff_runs newRows oldRows items).2.2 = items.length := by
  have hrfl : (diff_runs newRows oldRows items).2.2 =
      items.foldl
        (fun s it => bump s
          ((pyGet (diffChanges (snapMap newRows) (snapMap oldRows))
            it.id).getD "UNCHANGED"))
        ⟨0, 0, 0, 0⟩ := rfl
  rw [hrfl, foldl_bump_eq]
  simp only [summaryTotal, Nat.zero_add]
  exact countP_four_labels items _
    (fun it _ => diff_label_mem (snapMap newRows) (snapMap oldRows) it.id)

/-! ## Claim C6 -/

/-- C6: when there is no prior run, a first run with pairwise distinct
keys whose snapshot matches the current store (same item ids, up to
order) classifies every snapshotted record NEW, and the summary is
`{NEW: n, REMOVED: 0, UPDATED: 0, UNCHANGED: 0}` with `n` the size of
the run's snapshot. -/
theorem C6_first_run_all_new (newRows : List Snap) (items : List Item)
    (hkeys : (newRows.map (fun r => r.key)).Nodup)
    (hperm : (items.map (fun it => it.id)).Perm
      (newRows.map (fun r => r.item_id))) :
    (∀ it ∈ items,
      pyGet (diff_runs newRows [] items).2.1 it.id = some "NEW") ∧
    (diff_runs newRows [] items).2.2 = ⟨newRows.length, 0, 0, 0⟩ := by
  have hchanges : (diff_runs newRows [] items).2.1 =
      diffChanges (snapMap newRows) (snapMap []) := rfl
  have hsm : snapMap newRows =
      newRows.map (fun r => (r.key, (r.hash, r.item_id))) :=
    pyDict_of_nodup_keys hkeys
  have hnewOnly : (snapMap newRows).filter
      (fun e => !((snapMap ([] : List Snap)).any (fun o => o.1 = e.1))) =
      snapMap newRows :=
    List.filter_eq_self.mpr (fun e _ => rfl)
  have hcommon : (snapMap newRows).filter
      (fun e => (snapMap ([] : List Snap)).any (fun o => o.1 = e.1)) = [] :=
    List.filter_eq_nil_iff.mpr (fun e _ => by simp [snapMap, pyDict])
  have hremoved : (snapMap ([] : List Snap)).filter
      (fun e => !((snapMap newRows).any (fun n => n.1 = e.1))) = [] := rfl
  have hlab : ∀ it ∈ items,
      pyGet (diffChanges (snapMap newRows) (snapMap [])) it.id =
        some "NEW" := by
    intro it hit
    have hid : it.id ∈ newRows.map (fun r => r.item_id) :=
      hperm.mem_iff.mp (List.mem_map.mpr ⟨it, hit, rfl⟩)
    obtain ⟨r, hr, hrid⟩ := List.mem_map.mp hid
    rw [diffChanges_def, hcommon, hremoved, hnewOnly]
    simp only [List.foldl_nil]
    refine foldl_upsert_get ⟨(r.key, (r.hash, r.item_id)), ?_, hrid⟩
      (fun e _ _ => rfl)
    rw [hsm]
    exact List.mem_map.mpr ⟨r, hr, rfl⟩
  refine ⟨fun it hit => hlab it hit, ?_⟩
  have hrfl : (diff_runs newRows [] items).2.2 =
      items.foldl
        (fun s it => bump s
          ((pyGet (diffChanges (snapMap newRows) (snapMap []))
            it.id).getD "UNCHANGED"))
        ⟨0, 0, 0, 0⟩ := rfl
  rw [hrfl, foldl_bump_eq]
  have hlen : items.length = newRows.length := by
    have := hperm.length_eq
    simpa using this
  simp only [Summary.mk.injEq, Nat.zero_add]
  refine ⟨?_, ?_, ?_, ?_⟩
  · rw [← hlen]
    apply List.countP_eq_length.mpr
    intro it hit
    simp [hlab it hit]
  · apply List.countP_eq_zero.mpr
    intro it hit
    simp [hlab it hit]
  · apply List.countP_eq_zero.mpr
    intro it hit
    simp [hlab it hit]
  · apply List.countP_eq_zero.mpr
    intro it hit
    simp [hlab it hit]

/-- Witness for C6: a first run of two records, both NEW, summary
`{NEW: 2, 0, 0, 0}`. -/
theorem C6_first_run_all_new_witness :
    pyGet (diff_runs [⟨"a", "h1", 1⟩, ⟨"b", "h2", 2⟩] []
      [⟨1, "OTHER", none, "A", "C", "NV", none, none, none, none⟩,
       ⟨2, "OTHER", none, "B", "C", "NV", none, none, none, none⟩]).2.1 1 =
      some "NEW" ∧
    (diff_runs [⟨"a", "h1", 1⟩, ⟨"b", "h2", 2⟩] []
      [⟨1, "OTHER", none, "A", "C", "NV", none, none, none, none⟩,
       ⟨2, "OTHER", none, "B", "C", "NV", none, none, none, none⟩]).2.2 =
      ⟨2, 0, 0, 0⟩ := by
  have h := C6_first_run_all_new [⟨"a", "h1", 1⟩, ⟨"b", "h2", 2⟩]
    [⟨1, "OTHER", none, "A", "C", "NV", none, none, none, none⟩,
     ⟨2, "OTHER", none, "B", "C", "NV", none, none, none, none⟩]
    (by decide) (List.Perm.refl _)
  exact ⟨h.1 ⟨1, "OTHER", none, "A", "C", "NV", none, none, none, none⟩
    (by decide), h.2⟩

/-! ## Claim C10 -/

/-- C10, counterexample to the claim as stated: item 1 is live and has
no snapshot entry in the latest run, yet — because the *previous* run
still holds its key — the diff classifies it REMOVED and the summary
counts it under REMOVED, not UNCHANGED. -/
theorem C10_unsnapshotted_counterexample :
    pyGet (diff_runs [] [⟨"k1", "h1", 1⟩]
      [⟨1, "OTHER", none, "A", "C", "NV", none, none, none, none⟩]).2.1 1 =
      some "REMOVED" ∧
    (diff_runs [] [⟨"k1", "h1", 1⟩]
      [⟨1, "OTHER", none, "A", "C", "NV", none, none, none, none⟩]).2.2 =
      ⟨0, 1, 0, 0⟩ := by
  decide

/-- C10, amended: a live item row whose id has no snapshot entry in
*either* of the two diffed runs (e.g. a record inserted after the last
snapshot) receives no classification in the per-item map, yet is
counted under UNCHANGED in the summary. -/
theorem C10_unsnapshotted_amended (newRows oldRows : List Snap)
    (items : List Item) (it : Item) (hit : it ∈ items)
    (hnew : ∀ e ∈ newRows, e.item_id ≠ it.id)
    (hold : ∀ e ∈ oldRows, e.item_id ≠ it.id) :
    pyGet (diff_runs newRows oldRows items).2.1 it.id = none ∧
    1 ≤ (diff_runs newRows oldRows items).2.2.UNCHANGED := by
  have hnm : ∀ p ∈ snapMap newRows, p.2.2 ≠ it.id := by
    intro p hp
    obtain ⟨r, hr, hpr⟩ := snapMap_src hp
    rw [hpr]
    exact hnew r hr
  have hom : ∀ p ∈ snapMap oldRows, p.2.2 ≠ it.id := by
    intro p hp
    obtain ⟨r, hr, hpr⟩ := snapMap_src hp
    rw [hpr]
    exact hold r hr
  have hnone : pyGet (diffChanges (snapMap newRows) (snapMap oldRows))
      it.id = none := by
    rw [diffChanges_def]
    rw [foldl_upsert_get_of_ne
      (fun e he => hnm e (List.mem_filter.mp he).1)]
    rw [foldl_upsert_get_of_ne
      (fun e he => hom e (List.mem_filter.mp he).1)]
    rw [foldl_upsert_get_of_ne
      (fun e he => hnm e (List.mem_filter.mp he).1)]
    rfl
  refine ⟨hnone, ?_⟩
  have hrfl : (diff_runs newRows oldRows items).2.2 =
      items.foldl
        (fun s it => bump s
          ((pyGet (diffChanges (snapMap newRows) (snapMap oldRows))
            it.id).getD "UNCHANGED"))
        ⟨0, 0, 0, 0⟩ := rfl
  rw [hrfl, foldl_bump_eq]
  simp only [Nat.zero_add]
  apply List.countP_pos_iff.mpr
  exact ⟨it, hit, by simp [hnone]⟩

/-- Witness for the amended C10: item 9 was inserted after both runs;
it gets no classification and is counted under UNCHANGED. -/
theorem C10_unsnapshotted_amended_witness :
    pyGet (diff_runs [⟨"a", "h", 5⟩] []
      [⟨9, "OTHER", none, "B", "C", "NV", none, none, none, none⟩]).2.1 9 =
      none ∧
    1 ≤ (diff_runs [⟨"a", "h", 5⟩] []
      [⟨9, "OTHER", none, "B", "C", "NV", none, none, none, none⟩]).2.2.UNCHANGED := by
  have h := C10_unsnapshotted_amended [⟨"a", "h", 5⟩] []
    [⟨9, "OTHER", none, "B", "C", "NV", none, none, none, none⟩]
    ⟨9, "OTHER", none, "B", "C", "NV", none, none, none, none⟩
    (by decide) (by decide) (by decide)
  exact h

/-! ## Claim C2: fingerprint lemmas -/

theorem chars_split {a x : List Char} : ∀ {b y : List Char},
    '|' ∉ a → '|' ∉ b → a ++ '|' :: x = b ++ '|' :: y →
    a = b ∧ x = y := by
  induction a with
  | nil =>
    intro b y _ hb h
    cases b with
    | nil => simpa using h
    | cons c b' =>
      rw [List.nil_append, List.cons_append] at h
      injection h with h1 _
      exact absurd (h1 ▸ List.mem_cons_self c b') hb
  | cons c a' ih =>
    intro b y ha hb h
    cases b with
    | nil =>
      rw [List.cons_append, List.nil_append] at h
      injection h with h1 _
      exact absurd (h1 ▸ List.mem_cons_self c a') ha
    | cons d b' =>
      rw [List.cons_append, List.cons_append] at h
      injection h with h1 h2
      obtain ⟨he, hx⟩ := ih (fun hm => ha (List.mem_cons_of_mem _ hm))
        (fun hm => hb (List.mem_cons_of_mem _ hm)) h2
      exact ⟨by rw [h1, he], hx⟩

theorem string_split {p q u v : String}
    (hp : '|' ∉ p.data) (hq : '|' ∉ q.data)
    (h : p ++ "|" ++ u = q ++ "|" ++ v) : p = q ∧ u = v := by
  have hd := congrArg String.data h
  rw [String.data_append, String.data_append, String.data_append,
    String.data_append] at hd
  have hpipe : ("|" : String).data = ['|'] := rfl
  rw [hpipe, List.append_assoc, List.append_assoc,
    List.singleton_append, List.singleton_append] at hd
  obtain ⟨h1, h2⟩ := chars_split hp hq hd
  exact ⟨String.ext h1, String.ext h2⟩

theorem intercalate_go_append (a1 : String) (s : String) :
    ∀ (l : List String) (a2 : String),
      String.intercalate.go (a1 ++ a2) s l =
        a1 ++ String.intercalate.go a2 s l := by
  intro l
  induction l with
  | nil => intro a2; rfl
  | cons b bs ih =>
    intro a2
    show String.intercalate.go (a1 ++ a2 ++ s ++ b) s bs = _
    rw [String.append_assoc, String.append_assoc, ih (a2 ++ (s ++ b)),
      ← String.append_assoc a2 s b]
    rfl

theorem intercalate_cons_cons (s p q : String) (rest : List String) :
    String.intercalate s (p :: q :: rest) =
      p ++ s ++ String.intercalate s (q :: rest) := by
  have h1 : String.intercalate s (p :: q :: rest) =
      String.intercalate.go (p ++ s ++ q) s rest := rfl
  rw [h1, String.append_assoc p s q, intercalate_go_append p s rest (s ++ q),
    intercalate_go_append s s rest q, ← String.append_assoc]
  rfl

/-- Joining with `"|"` is injective on lists (of one length) of
pipe-free strings. -/
theorem intercalate_pipe_inj : ∀ (ps qs : List String),
    ps.length = qs.length →
    (∀ p ∈ ps, '|' ∉ p.data) → (∀ q ∈ qs, '|' ∉ q.data) →
    String.intercalate "|" ps = String.intercalate "|" qs → ps = qs := by
  intro ps
  induction ps with
  | nil =>
    intro qs hlen _ _ _
    cases qs with
    | nil => rfl
    | cons q qs => simp at hlen
  | cons p ps ih =>
    intro qs hlen hp hq h
    cases qs with
    | nil => simp at hlen
    | cons q qs =>
      cases ps with
      | nil =>
        cases qs with
        | nil =>
          have : p = q := h
          rw [this]
        | cons q2 qs2 => simp at hlen
      | cons p2 ps2 =>
        cases qs with
        | nil => simp at hlen
        | cons q2 qs2 =>
          rw [intercalate_cons_cons, intercalate_cons_cons] at h
          obtain ⟨h1, h2⟩ := string_split
            (hp p (List.mem_cons_self _ _))
            (hq q (List.mem_cons_self _ _)) h
          have htail : (p2 :: ps2) = (q2 :: qs2) :=
            ih (q2 :: qs2) (by simpa using hlen)
              (fun x hx => hp x (List.mem_cons_of_mem _ hx))
              (fun x hx => hq x (List.mem_cons_of_mem _ hx)) h2
          rw [h1, htail]

/-- C2, counterexample to the claim as stated: `address` is a tracked
field and the two records differ in it (by casing only), yet the
fingerprints coincide, because `make_hash` normalizes each part; and
the `"|"` delimiter is *not* disjoint from normalized content, since
`norm` preserves pipes. -/
theorem C2_fingerprint_counterexample :
    (Item.mk 1 "OTHER" none "100 MAIN ST" "W" "NV" none none none
        none).address ≠
      (Item.mk 1 "OTHER" none "100 main st" "W" "NV" none none none
        none).address ∧
    make_hash (Item.mk 1 "OTHER" none "100 MAIN ST" "W" "NV" none none
        none none) =
      make_hash (Item.mk 1 "OTHER" none "100 main st" "W" "NV" none none
        none none) ∧
    '|' ∈ (norm "a|b").data := by
  refine ⟨by decide, ?_, by decide⟩
  rfl

/-- C2, amended: over the record shape of the source (which has neither
`assessor_url` nor `resolved_situs`; the tracked fields are stage, apn,
address, city, state, zip, record_date, doc_type, source_url), two
records have equal fingerprints exactly when their *normalized* tracked
fields agree — provided no normalized tracked field contains the `"|"`
delimiter.  In particular a change of untracked `id` alone never
changes the fingerprint, and any change to the normalized value of a
tracked field does. -/
theorem C2_fingerprint_amended (r1 r2 : Item)
    (h1 : ∀ p ∈ (hashParts r1).map norm, '|' ∉ p.data)
    (h2 : ∀ p ∈ (hashParts r2).map norm, '|' ∉ p.data) :
    make_hash r1 = make_hash r2 ↔
      (hashParts r1).map norm = (hashParts r2).map norm := by
  constructor
  · intro h
    exact intercalate_pipe_inj _ _ (by simp [hashParts]) h1 h2 h
  · intro h
    unfold make_hash
    rw [h]

/-- Witness for the amended C2: two records differing only in `id`
have equal fingerprints. -/
theorem C2_fingerprint_amended_witness :
    make_hash (Item.mk 1 "TAX_DELINQUENCY" (some "12-3456-78")
      "100 Main St" "Winnemucca" "NV" (some "89445") none none none) =
    make_hash (Item.mk 2 "TAX_DELINQUENCY" (some "12-3456-78")
      "100 Main St" "Winnemucca" "NV" (some "89445") none none none) :=
  (C2_fingerprint_amended _ _ (by decide) (by decide)).mpr (by decide)

/-! ## Claim C3: key derivation

Supporting facts making "invariant under case/whitespace changes"
concrete: `norm` absorbs lower-casing, and leading/trailing blanks. -/

theorem toLower_idem (c : Char) :
    (Char.toLower c).toLower = Char.toLower c := by
  unfold Char.toLower
  by_cases h : c.toNat ≥ 65 ∧ c.toNat ≤ 90
  · have hv : (c.toNat + 32).isValidChar := by
      left
      omega
    rw [if_pos h]
    have ht : (Char.ofNat (c.toNat + 32)).toNat = c.toNat + 32 := by
      simp only [Char.ofNat, dif_pos hv]
      rfl
    rw [ht, if_neg (by omega)]
  · rw [if_neg h, if_neg h]

theorem norm_map_toLower (s : String) :
    norm (String.mk (s.data.map Char.toLower)) = norm s := by
  unfold norm
  simp only [List.map_map]
  rw [List.map_congr_left (fun c _ => ?_)]
  exact toLower_idem c

theorem norm_space_left (s : String) : norm (" " ++ s) = norm s := by
  unfold norm
  rw [String.data_append]
  rfl

theorem wordsAux_append_space : ∀ (l : List Char) (cur : List Char),
    wordsAux (l ++ [' ']) cur = wordsAux l cur := by
  intro l
  induction l with
  | nil =>
    intro cur
    by_cases h : cur = [] <;> simp [wordsAux, h]
  | cons c l ih =>
    intro cur
    by_cases hw : c.isWhitespace
    · by_cases h : cur = [] <;>
        simp [wordsAux, hw, h, ih]
    · simp [wordsAux, hw, ih]

theorem norm_space_right (s : String) : norm (s ++ " ") = norm s := by
  unfold norm
  rw [String.data_append]
  have hdata : (s.data ++ (" " : String).data).map Char.toLower =
      s.data.map Char.toLower ++ [' '] := by
    rw [List.map_append]
    rfl
  rw [hdata]
  unfold pyWords
  rw [wordsAux_append_space]

/-- C3: `make_key` returns `"{stage}|apn:{apn}"` (all components
normalized) when the record's parcel number is non-empty after
normalization, and `"{stage}|addr:{address}|{city}"` otherwise; and the
key is invariant under any change of the component fields that
preserves their normalization — in particular casing and
leading/trailing/internal whitespace changes, which `norm` (trim,
lower-case, collapse whitespace runs) absorbs. -/
theorem C3_make_key (r : Item) :
    (norm (r.apn.getD "") ≠ "" →
      make_key r = norm r.stage ++ "|apn:" ++ norm (r.apn.getD "")) ∧
    (norm (r.apn.getD "") = "" →
      make_key r =
        norm r.stage ++ "|addr:" ++ norm r.address ++ "|" ++
          norm r.city) ∧
    (∀ r' : Item, norm r'.stage = norm r.stage →
      norm (r'.apn.getD "") = norm (r.apn.getD "") →
      norm r'.address = norm r.address →
      norm r'.city = norm r.city →
      make_key r' = make_key r) := by
  refine ⟨?_, ?_, ?_⟩
  · intro h
    unfold make_key
    rw [if_pos h]
  · intro h
    unfold make_key
    rw [if_neg (by rw [h]; simp)]
  · intro r' hs ha had hc
    unfold make_key
    rw [hs, ha, had, hc]

/-- Witness for C3: a parcel-bearing record keeps its key under casing
and whitespace edits of its stage, apn, address and city. -/
theorem C3_make_key_witness :
    make_key (Item.mk 2 "  Tax_Delinquency" (some "12-3456-78 ") " a  " " B "
        "NV" none none none none) =
      make_key (Item.mk 1 "tax_delinquency" (some "12-3456-78") "A" "B"
        "NV" none none none none) :=
  (C3_make_key (Item.mk 1 "tax_delinquency" (some "12-3456-78") "A" "B"
      "NV" none none none none)).2.2
    (Item.mk 2 "  Tax_Delinquency" (some "12-3456-78 ") " a  " " B " "NV"
      none none none none)
    (by decide) (by decide) (by decide) (by decide)

/-! ## Claim C5: resolver lemmas -/

theorem normalizePostal_ne_empty {loc : String}
    (h : hasStreetNumber loc = true) : normalizePostal loc ≠ "" := by
  unfold normalizePostal
  split_ifs
  · intro he
    rw [he] at h
    exact absurd h (by decide)
  · intro he
    have hd := congrArg String.data he
    rw [String.data_append] at hd
    have h2 := (List.append_eq_nil.mp hd).2
    have : (", Winnemucca, NV 89445" : String) = "" := String.ext h2
    exact absurd this (by decide)

/-- One resolution attempt either leaves `resolved_situs` alone or
stores the postal normalization of a street-number-validated
extraction. -/
theorem resolveItem_situs (resp : Option String) (now : String)
    (r : RecordR) :
    (resolveItem resp now r).resolved_situs = r.resolved_situs ∨
    ∃ loc, hasStreetNumber loc = true ∧
      (resolveItem resp now r).resolved_situs = normalizePostal loc := by
  unfold resolveItem
  split
  · exact Or.inl rfl
  · split
    · exact Or.inl rfl
    · split
      · rename_i body loc hloc h
        exact Or.inr ⟨loc, h, rfl⟩
      · exact Or.inl rfl

/-- A record whose `resolved_situs` is already non-empty fails the
selection predicate and is returned untouched by a batch. -/
theorem resolveBatch_preserves (lookup : String → Option String)
    (now : String) : ∀ (fuel : Nat) (store : List RecordR) (i : Nat)
    (d : RecordR), (store.getD i d).resolved_situs ≠ "" →
    (resolveBatch lookup now fuel store).getD i d = store.getD i d := by
  intro fuel store
  induction store generalizing fuel with
  | nil => intro i d _; rfl
  | cons r rest ih =>
    intro i d h
    unfold resolveBatch
    by_cases hc : needsResolve r ∧ fuel ≠ 0
    · rw [if_pos hc]
      cases i with
      | zero =>
        exfalso
        have hsel : r.resolved_situs = "" := by
          have := hc.1
          unfold needsResolve at this
          simp only [Bool.and_eq_true, beq_iff_eq] at this
          exact this.2
        rw [List.getD_cons_zero] at h
        exact h hsel
      | succ i =>
        rw [List.getD_cons_succ, List.getD_cons_succ]
        rw [List.getD_cons_succ] at h
        exact ih (fuel - 1) i d h
    · rw [if_neg hc]
      cases i with
      | zero => rfl
      | succ i =>
        rw [List.getD_cons_succ, List.getD_cons_succ]
        rw [List.getD_cons_succ] at h
        exact ih fuel i d h

/-- Across one batch, each record's `resolved_situs` either persists
verbatim or goes from empty to a validated value. -/
theorem resolveBatch_situs_evolution (lookup : String → Option String)
    (now : String) : ∀ (fuel : Nat) (store : List RecordR) (i : Nat)
    (d : RecordR),
    ((resolveBatch lookup now fuel store).getD i d).resolved_situs =
      (store.getD i d).resolved_situs ∨
    ((store.getD i d).resolved_situs = "" ∧
      ∃ loc, hasStreetNumber loc = true ∧
        ((resolveBatch lookup now fuel store).getD i d).resolved_situs =
          normalizePostal loc) := by
  intro fuel store
  induction store generalizing fuel with
  | nil => intro i d; exact Or.inl rfl
  | cons r rest ih =>
    intro i d
    unfold resolveBatch
    by_cases hc : needsResolve r ∧ fuel ≠ 0
    · rw [if_pos hc]
      cases i with
      | zero =>
        rw [List.getD_cons_zero, List.getD_cons_zero]
        have hsel : r.resolved_situs = "" := by
          have := hc.1
          unfold needsResolve at this
          simp only [Bool.and_eq_true, beq_iff_eq] at this
          exact this.2
        rcases resolveItem_situs (lookup r.apn) now r with h | ⟨loc, hl, hs⟩
        · exact Or.inl h
        · exact Or.inr ⟨hsel, loc, hl, hs⟩
      | succ i =>
        rw [List.getD_cons_succ, List.getD_cons_succ]
        exact ih (fuel - 1) i d
    · rw [if_neg hc]
      cases i with
      | zero => exact Or.inl rfl
      | succ i =>
        rw [List.getD_cons_succ, List.getD_cons_succ]
        exact ih fuel i d

/-- C5 (the resolver is modelled from the specification; the sources
hold no resolver): once `resolved_situs` is non-empty the record is
excluded from selection and returned untouched by any batch — and any
sequence of batches; and in general a record's `resolved_situs` is
either preserved verbatim or set, from empty, to a non-empty
street-number-validated value.  A failed or rejected attempt therefore
never erases a stored situs. -/
theorem C5_resolver_monotone (lookup : String → Option String)
    (now : String) (fuel : Nat) (store : List RecordR) (i : Nat)
    (d : RecordR) :
    ((store.getD i d).resolved_situs ≠ "" →
      (resolveBatch lookup now fuel store).getD i d = store.getD i d) ∧
    (((resolveBatch lookup now fuel store).getD i d).resolved_situs =
        (store.getD i d).resolved_situs ∨
      ((store.getD i d).resolved_situs = "" ∧
        ∃ loc, hasStreetNumber loc = true ∧
          ((resolveBatch lookup now fuel store).getD i d).resolved_situs =
            normalizePostal loc ∧ normalizePostal loc ≠ "")) ∧
    (∀ seq : List ((String → Option String) × String × Nat),
      (store.getD i d).resolved_situs ≠ "" →
      (seq.foldl (fun st q => resolveBatch q.1 q.2.1 q.2.2 st)
          store).getD i d = store.getD i d) := by
  refine ⟨resolveBatch_preserves lookup now fuel store i d, ?_, ?_⟩
  · rcases resolveBatch_situs_evolution lookup now fuel store i d with
      h | ⟨he, loc, hl, hs⟩
    · exact Or.inl h
    · exact Or.inr ⟨he, loc, hl, hs, normalizePostal_ne_empty hl⟩
  · intro seq
    induction seq generalizing store with
    | nil => intro _; rfl
    | cons q seq ih =>
      intro h
      rw [List.foldl_cons]
      have h1 := resolveBatch_preserves q.1 q.2.1 q.2.2 store i d h
      have h2 : ((resolveBatch q.1 q.2.1 q.2.2 store).getD i
          d).resolved_situs ≠ "" := by
        rw [h1]
        exact h
      rw [ih (resolveBatch q.1 q.2.1 q.2.2 store) h2, h1]

/-- Witness for C5: an already-resolved record survives a batch whose
external lookups all fail. -/
theorem C5_resolver_monotone_witness :
    (resolveBatch (fun _ => none) "t1" 10
        [RecordR.mk 1 "TAX_DELINQUENCY" "12-3456-78" "Unknown address"
          "Winnemucca" "NV" "89445" "u" "100 MAIN ST" "t0"]).getD 0
      (RecordR.mk 0 "" "" "" "" "" "" "" "" "") =
    (([RecordR.mk 1 "TAX_DELINQUENCY" "12-3456-78" "Unknown address"
          "Winnemucca" "NV" "89445" "u" "100 MAIN ST" "t0"] :
        List RecordR).getD 0 (RecordR.mk 0 "" "" "" "" "" "" "" "" "")) :=
  (C5_resolver_monotone (fun _ => none) "t1" 10
      [RecordR.mk 1 "TAX_DELINQUENCY" "12-3456-78" "Unknown address"
        "Winnemucca" "NV" "89445" "u" "100 MAIN ST" "t0"] 0
      (RecordR.mk 0 "" "" "" "" "" "" "" "" "")).1 (by decide)

/-! ## Claim C7 -/

/-- C7: when the tax-list refresh fails at any whole-batch external
step — the fetch (the URL discovery itself never raises: it falls back)
or its status check, carried by the `Except.error` fetch outcome, or
the PDF parse — the route leaves the item store exactly as it was (no
TAX_DELINQUENCY row deleted or inserted, nothing else touched) and
flashes a terminal failure message instead of propagating the
exception. -/
theorem C7_tax_refresh_aborts (store : List Item) (nextId : Nat)
    (parsePdf : String → Except String (List TaxRow)) :
    (∀ e, tax_refresh (Except.error e) parsePdf store nextId =
      (store, Flash.danger ("Tax refresh failed: " ++ e))) ∧
    (∀ b e, parsePdf b = Except.error e →
      tax_refresh (Except.ok b) parsePdf store nextId =
        (store, Flash.danger ("Tax refresh failed: " ++ e))) := by
  refine ⟨fun e => rfl, fun b e h => ?_⟩
  show (match parsePdf b with
    | Except.error e => (store, Flash.danger ("Tax refresh failed: " ++ e))
    | Except.ok rows =>
      (replace_tax_rows rows store nextId,
        Flash.success ("Tax list refreshed. Loaded " ++
          toString rows.length ++ " APNs from county PDF."))) =
    (store, Flash.danger ("Tax refresh failed: " ++ e))
  rw [h]

/-- Witness for C7: a parse failure returns the store unchanged with a
failure flash. -/
theorem C7_tax_refresh_aborts_witness :
    tax_refresh (Except.ok "raw pdf bytes")
      (fun _ => Except.error "boom")
      [Item.mk 1 "TAX_DELINQUENCY" (some "11-1111-11") "A" "W" "NV"
        (some "89445") none none none] 2 =
    ([Item.mk 1 "TAX_DELINQUENCY" (some "11-1111-11") "A" "W" "NV"
        (some "89445") none none none],
      Flash.danger ("Tax refresh failed: " ++ "boom")) :=
  (C7_tax_refresh_aborts
      [Item.mk 1 "TAX_DELINQUENCY" (some "11-1111-11") "A" "W" "NV"
        (some "89445") none none none] 2
      (fun _ => Except.error "boom")).2 "raw pdf bytes" "boom" rfl

/-! ## Claim C8: tax-replace lemmas -/

/-- Every deduped parse row is the literal `parseRow` image of one of
the parse hits. -/
theorem parse_tax_rows_src {srcUrl : String}
    {parsed : List (String × String)} {r : TaxRow}
    (h : r ∈ parse_tax_rows srcUrl parsed) :
    ∃ hh ∈ parsed, r = parseRow srcUrl hh.1 hh.2 := by
  unfold parse_tax_rows dedupByApn at h
  obtain ⟨p, hp, hpr⟩ := List.mem_map.mp h
  obtain ⟨e, he, _, hv⟩ := pyDict_mem hp
  obtain ⟨hh, hhm, hhe⟩ := List.mem_map.mp he
  refine ⟨hh, hhm, ?_⟩
  rw [← hpr, ← hv, ← hhe]

/-- The APNs of the deduped parse rows are exactly the keys of the
dedupe dictionary. -/
theorem parse_tax_rows_apn_eq_keys (srcUrl : String)
    (parsed : List (String × String)) :
    (parse_tax_rows srcUrl parsed).map (fun r => r.apn) =
      (pyDict (fun r : TaxRow => r.apn) (fun r => r)
        (parsed.map (fun hh => parseRow srcUrl hh.1 hh.2))).map
          Prod.fst := by
  unfold parse_tax_rows dedupByApn
  rw [List.map_map]
  apply List.map_congr_left
  intro p hp
  obtain ⟨e, _, hk, hv⟩ := pyDict_mem hp
  show p.2.apn = p.1
  rw [← hv]
  exact hk

/-- C8: for every input parcel list, the bulk tax replace (the dedupe
step of `parse_tax_pdf` followed by `replace_tax_rows`) leaves every
record of any other stage completely unchanged, removes every
pre-existing TAX_DELINQUENCY record, and ends with exactly one
TAX_DELINQUENCY row per distinct parcel number of the input — inserted
with the placeholder address `"Unknown address"` whenever no street
address was found. -/
theorem C8_tax_replace (srcUrl : String) (parsed : List (String × String))
    (store : List Item) (nextId : Nat)
    (hids : ∀ it ∈ store, it.id < nextId) :
    (replace_tax_rows (parse_tax_rows srcUrl parsed) store nextId).filter
        (fun it => it.stage ≠ "TAX_DELINQUENCY") =
      store.filter (fun it => it.stage ≠ "TAX_DELINQUENCY") ∧
    (∀ it ∈ store, it.stage = "TAX_DELINQUENCY" →
      it ∉ replace_tax_rows (parse_tax_rows srcUrl parsed) store nextId) ∧
    ((replace_tax_rows (parse_tax_rows srcUrl parsed) store
        nextId).filter (fun it => it.stage = "TAX_DELINQUENCY")).map
        (fun it => it.apn) =
      (parse_tax_rows srcUrl parsed).map (fun r => some r.apn) ∧
    ((parse_tax_rows srcUrl parsed).map (fun r => r.apn)).Nodup ∧
    (∀ a, a ∈ (parse_tax_rows srcUrl parsed).map (fun r => r.apn) ↔
      a ∈ parsed.map (fun hh => hh.1)) ∧
    (∀ it ∈ replace_tax_rows (parse_tax_rows srcUrl parsed) store nextId,
      it.stage = "TAX_DELINQUENCY" →
      it.address = "Unknown address" ∨ ∃ hh ∈ parsed, it.address = hh.2) := by
  have hres : replace_tax_rows (parse_tax_rows srcUrl parsed) store
      nextId =
      store.filter (fun it => it.stage ≠ "TAX_DELINQUENCY") ++
        (parse_tax_rows srcUrl parsed).enum.map
          (fun p => insertedItem (nextId + p.1) p.2) := rfl
  have hins_stage : ∀ x ∈ (parse_tax_rows srcUrl parsed).enum.map
      (fun p => insertedItem (nextId + p.1) p.2),
      x.stage = "TAX_DELINQUENCY" := by
    intro x hx
    obtain ⟨p, hp, hpx⟩ := List.mem_map.mp hx
    obtain ⟨hh, _, hr⟩ :=
      parse_tax_rows_src (List.snd_mem_of_mem_enum hp)
    rw [← hpx]
    show p.2.stage = "TAX_DELINQUENCY"
    rw [hr]
    rfl
  have hins_id : ∀ x ∈ (parse_tax_rows srcUrl parsed).enum.map
      (fun p => insertedItem (nextId + p.1) p.2), nextId ≤ x.id := by
    intro x hx
    obtain ⟨p, _, hpx⟩ := List.mem_map.mp hx
    rw [← hpx]
    exact Nat.le_add_right _ _
  refine ⟨?_, ?_, ?_, ?_, ?_, ?_⟩
  · have h1 : (store.filter
        (fun it => it.stage ≠ "TAX_DELINQUENCY")).filter
          (fun it => it.stage ≠ "TAX_DELINQUENCY") =
        store.filter (fun it => it.stage ≠ "TAX_DELINQUENCY") :=
      List.filter_eq_self.mpr (fun x hx => (List.mem_filter.mp hx).2)
    have h2 : ((parse_tax_rows srcUrl parsed).enum.map
        (fun p => insertedItem (nextId + p.1) p.2)).filter
          (fun it => it.stage ≠ "TAX_DELINQUENCY") = [] :=
      List.filter_eq_nil_iff.mpr
        (fun x hx => by simp [hins_stage x hx])
    rw [hres, List.filter_append, h1, h2, List.append_nil]
  · intro it hit hstage hmem
    rw [hres] at hmem
    rcases List.mem_append.mp hmem with h | h
    · have := (List.mem_filter.mp h).2
      simp only [ne_eq, decide_not, Bool.not_eq_true', decide_eq_false_iff_not] at this
      exact this hstage
    · have := hins_id it h
      have := hids it hit
      omega
  · have h1 : (store.filter
        (fun it => it.stage ≠ "TAX_DELINQUENCY")).filter
          (fun it => it.stage = "TAX_DELINQUENCY") = [] :=
      List.filter_eq_nil_iff.mpr (fun x hx => by
        have := (List.mem_filter.mp hx).2
        simp only [ne_eq, decide_not, Bool.not_eq_true',
          decide_eq_false_iff_not] at this
        simpa using this)
    have h2 : ((parse_tax_rows srcUrl parsed).enum.map
        (fun p => insertedItem (nextId + p.1) p.2)).filter
          (fun it => it.stage = "TAX_DELINQUENCY") =
        (parse_tax_rows srcUrl parsed).enum.map
          (fun p => insertedItem (nextId + p.1) p.2) :=
      List.filter_eq_self.mpr (fun x hx => by simp [hins_stage x hx])
    rw [hres, List.filter_append, h1, h2, List.nil_append, List.map_map]
    have hsnd : (parse_tax_rows srcUrl parsed).enum.map
        (fun p => some p.2.apn) =
        (parse_tax_rows srcUrl parsed).map (fun r => some r.apn) := by
      have := List.enum_map_snd (parse_tax_rows srcUrl parsed)
      calc (parse_tax_rows srcUrl parsed).enum.map (fun p => some p.2.apn)
          = ((parse_tax_rows srcUrl parsed).enum.map Prod.snd).map
              (fun r => some r.apn) := by rw [List.map_map]; rfl
        _ = (parse_tax_rows srcUrl parsed).map (fun r => some r.apn) := by
              rw [this]
    exact hsnd
  · rw [parse_tax_rows_apn_eq_keys]
    exact pyDict_keys_nodup
  · intro a
    rw [parse_tax_rows_apn_eq_keys, pyDict_keys_mem, List.map_map]
    rfl
  · intro it hit hstage
    rw [hres] at hit
    rcases List.mem_append.mp hit with h | h
    · have := (List.mem_filter.mp h).2
      simp only [ne_eq, decide_not, Bool.not_eq_true', decide_eq_false_iff_not] at this
      exact absurd hstage this
    · obtain ⟨p, hp, hpx⟩ := List.mem_map.mp h
      obtain ⟨hh, hhm, hr⟩ :=
        parse_tax_rows_src (List.snd_mem_of_mem_enum hp)
      by_cases hg : hh.2 = ""
      · left
        rw [← hpx]
        show (if p.2.address = "" then "Unknown address" else p.2.address) =
          "Unknown address"
        rw [hr]
        simp [parseRow, hg]
      · right
        refine ⟨hh, hhm, ?_⟩
        rw [← hpx]
        show (if p.2.address = "" then "Unknown address" else p.2.address) =
          hh.2
        rw [hr]
        simp [parseRow, hg]

/-- Witness for C8: two distinct APNs (one repeated, one without a
street address) against a store holding one stale tax row and one
pre-foreclosure row. -/
theorem C8_tax_replace_witness :
    (Item.mk 1 "TAX_DELINQUENCY" (some "00-0000-00") "Old" "W" "NV"
        none none none none) ∉
      replace_tax_rows
        (parse_tax_rows "u"
          [("11-1111-11", ""), ("22-2222-22", "100 Main St"),
           ("11-1111-11", "5 Oak Ave")])
        [Item.mk 1 "TAX_DELINQUENCY" (some "00-0000-00") "Old" "W" "NV"
           none none none none,
         Item.mk 2 "PRE_FORECLOSURE" none "9 Elm" "W" "NV" none none
           none none] 3 :=
  (C8_tax_replace "u"
      [("11-1111-11", ""), ("22-2222-22", "100 Main St"),
       ("11-1111-11", "5 Oak Ave")]
      [Item.mk 1 "TAX_DELINQUENCY" (some "00-0000-00") "Old" "W" "NV"
         none none none none,
       Item.mk 2 "PRE_FORECLOSURE" none "9 Elm" "W" "NV" none none
         none none] 3 (by decide)).2.1
    (Item.mk 1 "TAX_DELINQUENCY" (some "00-0000-00") "Old" "W" "NV"
      none none none none) (by decide) rfl

/-! ## Claim C9 -/

/-- C9, counterexample to the claim as stated: `"Unknown address"`
bears no street-number token, yet `zillow_url` still produces a full
listing-site search URL (nothing is omitted), and `maps_url` — which
never sees `resolved_situs` (no such field exists in the source's
records) nor any parcel-lookup fallback — happily builds a link from an
empty address. -/
theorem C9_link_builders_counterexample :
    hasStreetNumber "Unknown address" = false ∧
    zillow_url "Unknown address" "Winnemucca" "NV" (some "89445") =
      "https://www.zillow.com/homes/Unknown+address%2C+Winnemucca%2C+NV+89445_rb/" ∧
    maps_url "" "Winnemucca" "NV" none =
      "https://www.google.com/maps/search/?api=1&query=%2C+Winnemucca%2C+NV" := by
  decide

/-- C9, amended: both link builders are unconditional — each
deterministically builds its search URL from the four postal arguments
alone, with no preference for a resolved situs and no parcel-lookup
fallback, and the listing-site URL is produced (non-empty) even when
the address carries no street-number token. -/
theorem C9_link_builders_amended (address city state : String)
    (zip : Option String) (_h : hasStreetNumber address = false) :
    (∃ q, maps_url address city state zip =
      "https://www.google.com/maps/search/?api=1&query=" ++ q) ∧
    (∃ q, zillow_url address city state zip =
      "https://www.zillow.com/homes/" ++ q ++ "_rb/") ∧
    zillow_url address city state zip ≠ "" := by
  refine ⟨⟨quote_plus (linkQuery address city state zip), rfl⟩,
    ⟨quote_plus (linkQuery address city state zip), rfl⟩, ?_⟩
  intro he
  unfold zillow_url at he
  have hd := congrArg String.data he
  rw [String.data_append] at hd
  have h2 := (List.append_eq_nil.mp hd).2
  have : ("_rb/" : String) = "" := String.ext h2
  exact absurd this (by decide)

/-- Witness for the amended C9: the placeholder address still yields
both links. -/
theorem C9_link_builders_amended_witness :
    (∃ q, maps_url "Unknown address" "Winnemucca" "NV" (some "89445") =
      "https://www.google.com/maps/search/?api=1&query=" ++ q) ∧
    (∃ q, zillow_url "Unknown address" "Winnemucca" "NV" (some "89445") =
      "https://www.zillow.com/homes/" ++ q ++ "_rb/") ∧
    zillow_url "Unknown address" "Winnemucca" "NV" (some "89445") ≠ "" :=
  C9_link_builders_amended "Unknown address" "Winnemucca" "NV"
    (some "89445") (by decide)

end FourClose
